import Mathlib

/-!
Verification of the core of the private-search-engines repository: the SQLite-backed
result store (src/cache.rs), the per-provider cache reconciler and the cross-provider
merge and orchestration logic (src/lib.rs). The database state is embedded as a record
of tables; each sqlx statement of the source becomes a pure state transformer. Rowids
start at 1, as in SQLite. Timestamps are abstracted as naturals.
-/

namespace PrivateSearch

/-- Mirrors struct ResultRow of cache.rs: a provider search result (url, title, description). -/
structure ResultRow where
  url : String
  title : String
  description : String
deriving DecidableEq, Repr

/-- Mirrors struct ImagesRow of cache.rs: a provider image result (url, title). -/
structure ImagesRow where
  url : String
  title : String
deriving DecidableEq, Repr

/-- Mirrors struct SearchResult of lib.rs. -/
structure SearchResult where
  url : String
  title : String
  description : String
  engines : List String
  cached : Bool
deriving DecidableEq, Repr

/-- Mirrors struct ImageResult of lib.rs. -/
structure ImageResult where
  url : String
  title : String
  engines : List String
  cached : Bool
deriving DecidableEq, Repr

/-- Mirrors enum EngineError of engines/mod.rs. -/
inductive EngineError where
  | ReqwestError : EngineError
  | ParseError : String → EngineError
  | Timeout : EngineError
deriving DecidableEq, Repr

/-- Mirrors enum FetchError of lib.rs. -/
inductive FetchError where
  | Sqlx : FetchError
  | Engine : EngineError → FetchError
  | AllEnginesFailed : FetchError
  | Timeouts : FetchError
deriving DecidableEq, Repr

/-- A row of the results table: id INTEGER PRIMARY KEY, url UNIQUE, title, description. -/
structure ResultEntry where
  id : Nat
  url : String
  title : String
  description : String
deriving DecidableEq, Repr

/-- A row of the images table. -/
structure ImageEntry where
  id : Nat
  url : String
  title : String
deriving DecidableEq, Repr

/-- A row of the query_results junction table. -/
structure LinkRow where
  query_id : Nat
  result_id : Nat
  result_index : Nat
deriving DecidableEq, Repr

/-- A row of the query_images junction table. -/
structure ImageLinkRow where
  query_id : Nat
  image_id : Nat
  image_index : Nat
deriving DecidableEq, Repr

/-- A row of the queries table. -/
structure QueryRow where
  id : Nat
  query : String
  engine_id : Nat
  fetched_at : Nat
deriving DecidableEq, Repr

/-- The SQLite database of create_search_cache, as a record of tables plus the
next rowid of each autoincrement table. -/
structure Store where
  engines : List (Nat × String)
  queries : List QueryRow
  results : List ResultEntry
  query_results : List LinkRow
  images : List ImageEntry
  query_images : List ImageLinkRow
  nextEngineId : Nat
  nextQueryId : Nat
  nextResultId : Nat
  nextImageId : Nat
deriving DecidableEq, Repr

/-- The freshly initialized (empty) database. -/
def Store.init : Store := ⟨[], [], [], [], [], [], 1, 1, 1, 1⟩

/-- Mirrors get_engine_id of cache.rs: select the id by name, inserting the engine
row when absent. -/
def get_engine_id (s : Store) (engine : String) : Nat × Store :=
  match s.engines.find? (fun p => p.2 == engine) with
  | some p => (p.1, s)
  | none =>
    (s.nextEngineId,
      { s with
        engines := s.engines ++ [(s.nextEngineId, engine)],
        nextEngineId := s.nextEngineId + 1 })

/-- Mirrors get_query of cache.rs: select the query row matching text and engine id. -/
def get_query (s : Store) (query : String) (engine_id : Nat) : Option QueryRow :=
  s.queries.find? (fun q => q.query == query && q.engine_id == engine_id)

/-- Mirrors insert_query of cache.rs. -/
def insert_query (s : Store) (query : String) (engine_id : Nat) (fetched_at : Nat) :
    Nat × Store :=
  (s.nextQueryId,
    { s with
      queries := s.queries ++ [⟨s.nextQueryId, query, engine_id, fetched_at⟩],
      nextQueryId := s.nextQueryId + 1 })

/-- Mirrors insert_result of cache.rs: INSERT OR IGNORE keyed by the unique url; when
ignored, the id of the existing row with that url is selected instead. -/
def insert_result (s : Store) (title url description : String) : Nat × Store :=
  match s.results.find? (fun r => r.url == url) with
  | some r => (r.id, s)
  | none =>
    (s.nextResultId,
      { s with
        results := s.results ++ [⟨s.nextResultId, url, title, description⟩],
        nextResultId := s.nextResultId + 1 })

/-- Mirrors insert_query_result of cache.rs: INSERT OR IGNORE on the primary key
(query_id, result_id). -/
def insert_query_result (s : Store) (query_id result_id result_index : Nat) : Store :=
  if s.query_results.any (fun l => l.query_id == query_id && l.result_id == result_id) then s
  else { s with query_results := s.query_results ++ [⟨query_id, result_id, result_index⟩] }

/-- Mirrors the scalar SELECT COUNT(*) FROM query_results WHERE query_id = ? of
upsert_query_with_results. -/
def countLinks (s : Store) (query_id : Nat) : Nat :=
  (s.query_results.filter (fun l => l.query_id == query_id)).length

/-- Insert one link into a list sorted by result_index (stable). -/
def insertByIndex (e : LinkRow) : List LinkRow → List LinkRow
  | [] => [e]
  | x :: xs =>
    if e.result_index < x.result_index then e :: x :: xs else x :: insertByIndex e xs

/-- ORDER BY result_index ASC, as a stable insertion sort. -/
def sortByIndex : List LinkRow → List LinkRow
  | [] => []
  | x :: xs => insertByIndex x (sortByIndex xs)

/-- Mirrors get_results_for_query of cache.rs: inner join of query_results with results,
ordered by result_index ascending. -/
def get_results_for_query (s : Store) (query_id : Nat) : List ResultRow :=
  (sortByIndex (s.query_results.filter (fun l => l.query_id == query_id))).filterMap
    (fun l =>
      (s.results.find? (fun r => r.id == l.result_id)).map
        (fun r => ⟨r.url, r.title, r.description⟩))

/-- The loop body of upsert_query_with_results: for the i-th entry, insert_result then
insert_query_result at index current_count + i. The index argument starts at the
current link count and increments per entry. -/
def insertEntries : Store → Nat → Nat → List ResultRow → Store
  | s, _, _, [] => s
  | s, qid, idx, e :: es =>
    let p := insert_result s e.title e.url e.description
    insertEntries (insert_query_result p.2 qid p.1 idx) qid (idx + 1) es

/-- Mirrors upsert_query_with_results of cache.rs (success path): resolve the engine id,
find or create the query row, read the current link count, and link each entry in order.
In the source every statement executes directly on the pool and auto-commits; this is
the run in which no statement fails. -/
def upsert_query_with_results (s : Store) (engine query : String) (entries : List ResultRow)
    (fetched_at : Nat) : Nat × Store :=
  let p := get_engine_id s engine
  match get_query p.2 query p.1 with
  | some q => (q.id, insertEntries p.2 q.id (countLinks p.2 q.id) entries)
  | none =>
    let pq := insert_query p.2 query p.1 fetched_at
    (pq.1, insertEntries pq.2 pq.1 (countLinks pq.2 pq.1) entries)

/-- The loop of upsert_query_with_results when the link INSERT of entry number failAt
returns an I/O error. Because every statement of the source runs on the pool rather
than on the transaction begun on line 90 of cache.rs, each completed statement is
already committed when the failure hits: the returned store is the durable state.
The boolean is true when the loop completed without failure. -/
def insertEntriesFailAt : Store → Nat → Nat → Nat → List ResultRow → Store × Bool
  | s, _, _, _, [] => (s, true)
  | s, qid, idx, failAt, e :: es =>
    let p := insert_result s e.title e.url e.description
    if failAt == 0 then (p.2, false)
    else insertEntriesFailAt (insert_query_result p.2 qid p.1 idx) qid (idx + 1)
      (failAt - 1) es

/-- Mirrors upsert_query_with_results when the link INSERT of entry number failAt fails:
the call surfaces the error (result none) and the durable state keeps everything the
earlier auto-committed statements wrote. -/
def upsert_query_with_results_failAt (s : Store) (engine query : String)
    (entries : List ResultRow) (fetched_at : Nat) (failAt : Nat) : Option Nat × Store :=
  let p := get_engine_id s engine
  match get_query p.2 query p.1 with
  | some q =>
    let r := insertEntriesFailAt p.2 q.id (countLinks p.2 q.id) failAt entries
    (if r.2 then some q.id else none, r.1)
  | none =>
    let pq := insert_query p.2 query p.1 fetched_at
    let r := insertEntriesFailAt pq.2 pq.1 (countLinks pq.2 pq.1) failAt entries
    (if r.2 then some pq.1 else none, r.1)

/-- Mirrors the image-side scalar count of upsert_query_with_images. -/
def countImageLinks (s : Store) (query_id : Nat) : Nat :=
  (s.query_images.filter (fun l => l.query_id == query_id)).length

/-- Mirrors insert_image of cache.rs. -/
def insert_image (s : Store) (title url : String) : Nat × Store :=
  match s.images.find? (fun r => r.url == url) with
  | some r => (r.id, s)
  | none =>
    (s.nextImageId,
      { s with
        images := s.images ++ [⟨s.nextImageId, url, title⟩],
        nextImageId := s.nextImageId + 1 })

/-- Mirrors insert_query_image of cache.rs. -/
def insert_query_image (s : Store) (query_id image_id image_index : Nat) : Store :=
  if s.query_images.any (fun l => l.query_id == query_id && l.image_id == image_id) then s
  else { s with query_images := s.query_images ++ [⟨query_id, image_id, image_index⟩] }

/-- Insert one image link into a list sorted by image_index (stable). -/
def insertByImageIndex (e : ImageLinkRow) : List ImageLinkRow → List ImageLinkRow
  | [] => [e]
  | x :: xs =>
    if e.image_index < x.image_index then e :: x :: xs else x :: insertByImageIndex e xs

/-- ORDER BY image_index ASC, as a stable insertion sort. -/
def sortByImageIndex : List ImageLinkRow → List ImageLinkRow
  | [] => []
  | x :: xs => insertByImageIndex x (sortByImageIndex xs)

/-- Mirrors get_images_for_query of cache.rs. -/
def get_images_for_query (s : Store) (query_id : Nat) : List ImagesRow :=
  (sortByImageIndex (s.query_images.filter (fun l => l.query_id == query_id))).filterMap
    (fun l =>
      (s.images.find? (fun r => r.id == l.image_id)).map (fun r => ⟨r.url, r.title⟩))

/-- The loop body of upsert_query_with_images. -/
def insertImageEntries : Store → Nat → Nat → List ImagesRow → Store
  | s, _, _, [] => s
  | s, qid, idx, e :: es =>
    let p := insert_image s e.title e.url
    insertImageEntries (insert_query_image p.2 qid p.1 idx) qid (idx + 1) es

/-- Mirrors upsert_query_with_images of cache.rs (success path). -/
def upsert_query_with_images (s : Store) (engine query : String) (entries : List ImagesRow)
    (fetched_at : Nat) : Nat × Store :=
  let p := get_engine_id s engine
  match get_query p.2 query p.1 with
  | some q => (q.id, insertImageEntries p.2 q.id (countImageLinks p.2 q.id) entries)
  | none =>
    let pq := insert_query p.2 query p.1 fetched_at
    (pq.1, insertImageEntries pq.2 pq.1 (countImageLinks pq.2 pq.1) entries)

/-- The clamped slice bounds of fetch_or_cache_result and fetch_or_cache_image
(lib.rs lines 190-191 and 345-346): start.min(cached_count) and
cached_count.min(start + count). This idealizes the usize addition
needed_end = start + count as unbounded, which is exact whenever the sum does not
overflow; windowBoundsWrap below refines it with the release-build wrap. -/
def windowBounds (start count cached_count : Nat) : Nat × Nat :=
  (min start cached_count, min cached_count (start + count))

/-- The same clamped slice bounds with the source's usize arithmetic taken literally:
in a release build the addition needed_end = start + count wraps modulo 2^64 (a debug
build panics at the addition), so the second bound is computed from the wrapped sum. -/
def windowBoundsWrap (start count cached_count : Nat) : Nat × Nat :=
  (min start cached_count, min cached_count ((start + count) % 2 ^ 64))

/-- Build one response SearchResult from a stored or fetched row, as in the push
loops of fetch_or_cache_result. -/
def toSearchResult (engineName : String) (r : ResultRow) (cached : Bool) : SearchResult :=
  ⟨r.url, r.title, r.description, [engineName], cached⟩

/-- Build one response ImageResult, as in the push loops of fetch_or_cache_image. -/
def toImageResult (engineName : String) (r : ImagesRow) (cached : Bool) : ImageResult :=
  ⟨r.url, r.title, [engineName], cached⟩

/-- The cached rows fetch_or_cache_result loads (lib.rs lines 176-185): resolve the
engine id, look the query up, and read its linked results in stored order; the empty
list when the query row does not exist. -/
def cachedRowsOf (s : Store) (engineName query : String) : List ResultRow :=
  let p := get_engine_id s engineName
  match get_query p.2 query p.1 with
  | some qr => get_results_for_query p.2 qr.id
  | none => []

/-- Mirrors fetch_or_cache_result of lib.rs. The provider adapter response is the
providerPage argument (the adapter is an external collaborator). The returned triple
is the response list, the database state after the call, and the number of live
provider calls the run performed (the source performs one exactly when the cached
rows do not cover the requested window). -/
def fetch_or_cache_result (s : Store) (engineName query : String)
    (providerPage : Except EngineError (List ResultRow)) (start count fetched_at : Nat) :
    Except FetchError (List SearchResult × Store × Nat) :=
  let p := get_engine_id s engineName
  let cached_rows :=
    match get_query p.2 query p.1 with
    | some qr => get_results_for_query p.2 qr.id
    | none => []
  let cached_count := cached_rows.length
  let needed_end := start + count
  let b := windowBounds start count cached_count
  let served := ((cached_rows.take b.2).drop b.1).map (fun r => toSearchResult engineName r true)
  if cached_count < needed_end then
    match providerPage with
    | .error e => .error (.Engine e)
    | .ok engine_results =>
      let u := upsert_query_with_results p.2 engineName query engine_results fetched_at
      .ok (served ++ engine_results.map (fun r => toSearchResult engineName r false), u.2, 1)
  else
    .ok (served, p.2, 0)

/-- Mirrors fetch_or_cache_image of lib.rs, analogously. -/
def fetch_or_cache_image (s : Store) (engineName query : String)
    (providerPage : Except EngineError (List ImagesRow)) (start count fetched_at : Nat) :
    Except FetchError (List ImageResult × Store × Nat) :=
  let p := get_engine_id s engineName
  let cached_rows :=
    match get_query p.2 query p.1 with
    | some qr => get_images_for_query p.2 qr.id
    | none => []
  let cached_count := cached_rows.length
  let needed_end := start + count
  let b := windowBounds start count cached_count
  let served := ((cached_rows.take b.2).drop b.1).map (fun r => toImageResult engineName r true)
  if cached_count < needed_end then
    match providerPage with
    | .error e => .error (.Engine e)
    | .ok engine_images =>
      let u := upsert_query_with_images p.2 engineName query engine_images fetched_at
      .ok (served ++ engine_images.map (fun r => toImageResult engineName r false), u.2, 1)
  else
    .ok (served, p.2, 0)

/-- Lexicographic comparison of character lists, structurally recursive so that it
evaluates inside the kernel. This is the Ord used by the BTreeMap of merge_results:
Rust compares Strings byte-wise, which on valid UTF-8 coincides with code-point
lexicographic order. -/
def charListLt : List Char → List Char → Bool
  | [], [] => false
  | [], _ :: _ => true
  | _ :: _, [] => false
  | a :: as, b :: bs => if a < b then true else if b < a then false else charListLt as bs

/-- Lexicographic url order of the BTreeMap key. -/
def urlLt (a b : String) : Bool := charListLt a.data b.data

/-- The and_modify closure of merge_results (lib.rs lines 141-150): extend the engines
list and backfill empty title and description. -/
def mergeModify (existing row : SearchResult) : SearchResult :=
  { existing with
    engines := existing.engines ++ row.engines,
    description := if existing.description.isEmpty then row.description else existing.description,
    title := if existing.title.isEmpty then row.title else existing.title }

/-- BTreeMap entry(key).and_modify(..).or_insert(row), over the map represented as a
list of records strictly sorted by url. -/
def btreeInsert (row : SearchResult) : List SearchResult → List SearchResult
  | [] => [row]
  | x :: xs =>
    if urlLt row.url x.url then row :: x :: xs
    else if row.url == x.url then mergeModify x row :: xs
    else x :: btreeInsert row xs

/-- Mirrors merge_results of lib.rs: fold the flattened rows into the map in arrival
order; into_values then yields the records in ascending url order. -/
def merge_results (results : List SearchResult) : List SearchResult :=
  results.foldl (fun m row => btreeInsert row m) []

/-- The and_modify closure of merge_images. -/
def mergeImageModify (existing row : ImageResult) : ImageResult :=
  { existing with
    engines := existing.engines ++ row.engines,
    title := if existing.title.isEmpty then row.title else existing.title }

/-- BTreeMap insertion for merge_images. -/
def btreeInsertImage (row : ImageResult) : List ImageResult → List ImageResult
  | [] => [row]
  | x :: xs =>
    if urlLt row.url x.url then row :: x :: xs
    else if row.url == x.url then mergeImageModify x row :: xs
    else x :: btreeInsertImage row xs

/-- Mirrors merge_images of lib.rs. -/
def merge_images (images : List ImageResult) : List ImageResult :=
  images.foldl (fun m row => btreeInsertImage row m) []

/-- Outcome of one spawned task of search_engine_results: the outer error is that
task's own 3-second deadline elapsing, the inner value is what fetch_or_cache_result
returned. -/
abbrev TaskOutcome := Except Unit (Except FetchError (List SearchResult))

/-- The collection loop of search_engine_results (lib.rs lines 115-125). A per-task
deadline error is logged and skipped; a finished task sets any_success and its inner
Result is unwrapped — none models the panic of rows.unwrap() on an inner Err
(lib.rs line 119). -/
def collectEngineResults : List SearchResult → Bool → List TaskOutcome →
    Option (List SearchResult × Bool)
  | flat, any_success, [] => some (flat, any_success)
  | flat, any_success, .error _ :: rest => collectEngineResults flat any_success rest
  | flat, _, .ok rows :: rest =>
    match rows with
    | .ok v => collectEngineResults (flat ++ v) true rest
    | .error _ => none

/-- Mirrors search_engine_results of lib.rs after the fan-out: per_engine is the list
of per-task outcomes join_all produced (one per requested engine, in spawn order) and
overallTimedOut models the outer deadline elapsing first. none models a panic. -/
def search_engine_results (per_engine : List TaskOutcome) (overallTimedOut : Bool) :
    Option (Except FetchError (List SearchResult)) :=
  if overallTimedOut then some (.error .Timeouts)
  else
    match collectEngineResults [] false per_engine with
    | none => none
    | some (flat, any_success) =>
      if !any_success then some (.error .AllEnginesFailed)
      else some (.ok (merge_results flat))

/-- Observer: the url is linked to the (engine, query) pair in the store — there is an
engine row with that name, a query row for the pair, a result row with that url and a
junction row joining the query to the result. -/
def urlLinkedToQuery (s : Store) (engineName query url : String) : Bool :=
  match s.engines.find? (fun p => p.2 == engineName) with
  | none => false
  | some p =>
    match get_query s query p.1 with
    | none => false
    | some qr =>
      match s.results.find? (fun r => r.url == url) with
      | none => false
      | some r => s.query_results.any (fun l => l.query_id == qr.id && l.result_id == r.id)

/-- Expected results-table suffix after inserting fresh entries: the i-th entry gets
rowid rid0 + i. Used to state intermediate lemmas about insertEntries. -/
def specEntries : List ResultRow → Nat → List ResultEntry
  | [], _ => []
  | e :: es, rid => ⟨rid, e.url, e.title, e.description⟩ :: specEntries es (rid + 1)

/-- Expected query_results-table suffix after inserting fresh entries: the i-th entry
is linked at result_id rid0 + i and result_index idx0 + i. -/
def specLinks (qid : Nat) : List ResultRow → Nat → Nat → List LinkRow
  | [], _, _ => []
  | _ :: es, rid, idx => ⟨qid, rid, idx⟩ :: specLinks qid es (rid + 1) (idx + 1)

/-- The entry's url resolves (by the unique-url lookup insert_result performs) to a
result row that is linked to the query: the situation in which a repeated upsert of
this entry is a no-op. -/
def LinkedIn (s : Store) (qid : Nat) (e : ResultRow) : Prop :=
  ∃ r, s.results.find? (fun x => x.url == e.url) = some r ∧
    ∃ l ∈ s.query_results, l.query_id = qid ∧ l.result_id = r.id

section Claims

/-- C9: search_engine_results with an empty provider list spawns zero tasks, so the
collection loop records no success and the call returns AllEnginesFailed rather than
an empty result list. -/
theorem search_engine_results_empty_providers :
    search_engine_results [] false = some (.error FetchError.AllEnginesFailed) := rfl

/-- C1 (evidence of the code bug): with two providers where the first task finishes
with a provider error and the second succeeds, search_engine_results panics (modeled
as none) through rows.unwrap() on lib.rs line 119 instead of logging the failure and
returning the sibling's merged results. Only a task whose own deadline elapsed is
excluded as the spec describes, as the second conjunct shows. -/
theorem search_engine_results_panics_on_task_error :
    search_engine_results
        [Except.ok (Except.error (FetchError.Engine EngineError.Timeout)),
         Except.ok (Except.ok [⟨"https://x.com", "t", "d", ["DuckDuckGo"], false⟩])] false
      = none ∧
    search_engine_results
        [Except.error (),
         Except.ok (Except.ok [⟨"https://x.com", "t", "d", ["DuckDuckGo"], false⟩])] false
      = some (.ok [⟨"https://x.com", "t", "d", ["DuckDuckGo"], false⟩]) :=
  ⟨rfl, rfl⟩

/-- C2 (evidence of the code bug): upserting two entries with the second link INSERT
failing surfaces the error, yet the first link is already durable — the statements run
on the pool, not on the transaction begun in upsert_query_with_results, so the page is
not atomic: the query_results table changed although the call failed. -/
theorem upsert_error_leaves_partial_links :
    (upsert_query_with_results_failAt Store.init "Brave" "rust"
        [⟨"https://a.com", "ta", "da"⟩, ⟨"https://b.com", "tb", "db"⟩] 0 1).1 = none ∧
    countLinks (upsert_query_with_results_failAt Store.init "Brave" "rust"
        [⟨"https://a.com", "ta", "da"⟩, ⟨"https://b.com", "tb", "db"⟩] 0 1).2 1 = 1 ∧
    countLinks Store.init 1 = 0 :=
  ⟨rfl, rfl, rfl⟩

/-- C3 (counterexample): merging two records with the same url whose provider lists
both hold the name Brave yields a single record whose provider list holds Brave twice
— and_modify extends the engines list without removing duplicates, so the name does
not appear exactly once. -/
theorem merge_results_duplicates_provider_name :
    (merge_results
        [⟨"https://x.com", "t", "d", ["Brave"], true⟩,
         ⟨"https://x.com", "t", "d", ["Brave"], false⟩]).map
      (fun r => r.engines.count "Brave") = [2] := by decide

/-- C10 (counterexample): the source computes needed_end = start + count in usize, and
in a release build that addition wraps modulo 2^64. With start = 5, count = 2^64 - 4
and 10 cached rows the wrapped sum is 1, so the clamped bounds come out as (5, 1):
start exceeds end and the slice cached_rows[5..1] is out of range — the claimed
in-range guarantee fails for arbitrary caller-supplied window arguments (a debug build
already panics at the addition itself). -/
theorem windowBounds_overflow_counterexample :
    (windowBoundsWrap 5 (2 ^ 64 - 4) 10).1 = 5 ∧
    (windowBoundsWrap 5 (2 ^ 64 - 4) 10).2 = 1 ∧
    ¬ ((windowBoundsWrap 5 (2 ^ 64 - 4) 10).1 ≤ (windowBoundsWrap 5 (2 ^ 64 - 4) 10).2) := by
  refine ⟨by decide, by decide, by decide⟩

/-- C10 (amended): whenever the window sum start + count does not overflow usize, the
clamped slice bounds of fetch_or_cache_result and fetch_or_cache_image satisfy
min(start, cached_count) ≤ min(cached_count, start + count) ≤ cached_count, so the
cached-list slice is well defined; without that bound the release-build wrapped sum
can fall below the clamped start, as the counterexample shows. -/
theorem windowBoundsWrap_in_range (start count cached_count : Nat)
    (h : start + count < 2 ^ 64) :
    (windowBoundsWrap start count cached_count).1
        ≤ (windowBoundsWrap start count cached_count).2 ∧
    (windowBoundsWrap start count cached_count).2 ≤ cached_count := by
  have hm : (start + count) % 2 ^ 64 = start + count := Nat.mod_eq_of_lt h
  simp only [windowBoundsWrap, hm]
  refine ⟨Nat.le_min.mpr ⟨Nat.min_le_right _ _, ?_⟩, Nat.min_le_left _ _⟩
  exact le_trans (Nat.min_le_left _ _) (Nat.le_add_right _ _)

/-- Witness for the amended C10 theorem at a concrete non-overflowing window. -/
theorem windowBoundsWrap_in_range_witness :
    0 + 10 < 2 ^ 64 ∧
    ((windowBoundsWrap 0 10 3).1 ≤ (windowBoundsWrap 0 10 3).2 ∧
      (windowBoundsWrap 0 10 3).2 ≤ 3) :=
  ⟨by decide, windowBoundsWrap_in_range 0 10 3 (by decide)⟩

theorem charListLt_irrefl (l : List Char) : charListLt l l = false := by
  induction l with
  | nil => rfl
  | cons a as ih => simp [charListLt, lt_irrefl, ih]

theorem charListLt_iff_lt (l1 l2 : List Char) : charListLt l1 l2 = true ↔ List.lt l1 l2 := by
  induction l1 generalizing l2 with
  | nil =>
    cases l2 with
    | nil =>
      simp only [charListLt]
      constructor
      · intro h; cases h
      · intro h; cases h
    | cons b bs =>
      simp only [charListLt]
      constructor
      · intro _; exact .nil b bs
      · intro _; trivial
  | cons a as ih =>
    cases l2 with
    | nil =>
      simp only [charListLt]
      constructor
      · intro h; cases h
      · intro h; cases h
    | cons b bs =>
      simp only [charListLt]
      split_ifs with hab hba
      · constructor
        · intro _; exact .head as bs hab
        · intro _; trivial
      · constructor
        · intro h; cases h
        · intro h
          cases h with
          | head _ _ h => exact absurd h hab
          | tail h1 h2 h3 => exact absurd hba h2
      · rw [ih]
        constructor
        · intro h; exact .tail hab hba h
        · intro h
          cases h with
          | head _ _ h => exact absurd h hab
          | tail _ _ h3 => exact h3

theorem urlLt_iff_lt (a b : String) : urlLt a b = true ↔ a < b := by
  rw [String.lt_iff_toList_lt]
  exact (charListLt_iff_lt a.data b.data).trans (List.lt_iff_lex_lt a.data b.data)

theorem urlLt_irrefl (a : String) : urlLt a a = false := charListLt_irrefl a.data

theorem urlLt_trans {a b c : String} (h1 : urlLt a b = true) (h2 : urlLt b c = true) :
    urlLt a c = true := by
  rw [urlLt_iff_lt] at h1 h2 ⊢
  exact lt_trans h1 h2

theorem urlLt_conn {a b : String} (h1 : urlLt a b = false) (hne : ¬ a = b) :
    urlLt b a = true := by
  rw [urlLt_iff_lt]
  rcases lt_trichotomy a b with h | h | h
  · exact absurd ((urlLt_iff_lt a b).mpr h) (by simp [h1])
  · exact absurd h hne
  · exact h



theorem mergeModify_url (e r : SearchResult) : (mergeModify e r).url = e.url := rfl

theorem btreeInsert_urls (row : SearchResult) (m : List SearchResult) (u : String) :
    u ∈ (btreeInsert row m).map (fun r => r.url) ↔
      u = row.url ∨ u ∈ m.map (fun r => r.url) := by
  induction m with
  | nil => simp [btreeInsert]
  | cons x xs ih =>
    simp only [btreeInsert]
    split_ifs with h1 h2
    · simp only [List.map_cons, List.mem_cons]
    · have hx : row.url = x.url := by simpa using h2
      simp only [List.map_cons, List.mem_cons, mergeModify_url, hx]
      tauto
    · simp only [List.map_cons, List.mem_cons, ih]
      tauto

theorem btreeInsert_sorted (row : SearchResult) (m : List SearchResult)
    (h : m.Pairwise (fun a b => urlLt a.url b.url = true)) :
    (btreeInsert row m).Pairwise (fun a b => urlLt a.url b.url = true) := by
  induction m with
  | nil => simp [btreeInsert]
  | cons x xs ih =>
    rcases List.pairwise_cons.mp h with ⟨hx, hxs⟩
    simp only [btreeInsert]
    split_ifs with h1 h2
    · refine List.pairwise_cons.mpr ⟨?_, h⟩
      intro y hy
      rcases List.mem_cons.mp hy with rfl | hy2
      · exact h1
      · exact urlLt_trans h1 (hx y hy2)
    · refine List.pairwise_cons.mpr ⟨?_, hxs⟩
      intro y hy
      rw [mergeModify_url]
      exact hx y hy
    · refine List.pairwise_cons.mpr ⟨?_, ih hxs⟩
      intro y hy
      have hy' : y.url = row.url ∨ y.url ∈ xs.map (fun r => r.url) :=
        (btreeInsert_urls row xs y.url).mp (List.mem_map_of_mem _ hy)
      rcases hy' with h3 | h3
      · rw [h3]
        refine urlLt_conn ?_ ?_
        · simpa using h1
        · intro he
          exact h2 (by simp [he])
      · rcases List.mem_map.mp h3 with ⟨z, hz, hzu⟩
        rw [← hzu]
        exact hx z hz

theorem mergeLoop_sorted (rs : List SearchResult) (m : List SearchResult)
    (h : m.Pairwise (fun a b => urlLt a.url b.url = true)) :
    (rs.foldl (fun m row => btreeInsert row m) m).Pairwise
      (fun a b => urlLt a.url b.url = true) := by
  induction rs generalizing m with
  | nil => simpa using h
  | cons r rs ih => exact ih _ (btreeInsert_sorted r m h)

theorem mergeLoop_urls (rs : List SearchResult) (m : List SearchResult) (u : String) :
    u ∈ (rs.foldl (fun m row => btreeInsert row m) m).map (fun r => r.url) ↔
      u ∈ m.map (fun r => r.url) ∨ u ∈ rs.map (fun r => r.url) := by
  induction rs generalizing m with
  | nil => simp
  | cons r rs ih =>
    simp only [List.foldl_cons, List.map_cons, List.mem_cons]
    rw [ih]
    rw [btreeInsert_urls]
    tauto

/-- C6: merge_results is total and pure; its output is strictly sorted in ascending
lexicographic url order (hence has exactly one record per distinct url), and the set
of output urls equals the set of input urls, keyed by the exact url string, regardless
of arrival order. -/
theorem merge_results_sorted_dedup (rs : List SearchResult) :
    (merge_results rs).Pairwise (fun a b => a.url < b.url) ∧
    ((merge_results rs).map (fun r => r.url)).Nodup ∧
    (∀ u, u ∈ (merge_results rs).map (fun r => r.url) ↔ u ∈ rs.map (fun r => r.url)) := by
  have hs := mergeLoop_sorted rs [] List.Pairwise.nil
  refine ⟨hs.imp (fun h => (urlLt_iff_lt _ _).mp h), ?_, ?_⟩
  · have hne : (merge_results rs).Pairwise (fun a b => a.url ≠ b.url) :=
      hs.imp (fun h he => by rw [he, urlLt_irrefl] at h; cases h)
    exact List.pairwise_map.mpr hne
  · intro u
    have := mergeLoop_urls rs [] u
    simpa using this

/-- C3 (amended): when a repeated url key is encountered, the new record's provider
list is appended (extended) onto the existing record's provider list — duplicate
provider names are not removed — and title and description are backfilled only where
the existing field is empty. -/
theorem merge_results_same_url_extends_engines (r1 r2 : SearchResult) (h : r1.url = r2.url) :
    merge_results [r1, r2] =
      [{ r1 with
          engines := r1.engines ++ r2.engines,
          title := if r1.title.isEmpty then r2.title else r1.title,
          description := if r1.description.isEmpty then r2.description else r1.description }] := by
  have h1 : urlLt r2.url r1.url = false := by rw [h]; exact urlLt_irrefl r2.url
  have h2 : (r2.url == r1.url) = true := by simp [h]
  simp only [merge_results, List.foldl_cons, List.foldl_nil, btreeInsert, h1, h2]
  simp [mergeModify]

/-- Witness for the amended C3 theorem at concrete records sharing one url. -/
theorem merge_results_same_url_extends_engines_witness :
    merge_results
        [⟨"https://x.com", "t", "d", ["Brave"], true⟩,
         ⟨"https://x.com", "t2", "d2", ["DuckDuckGo"], false⟩]
      = [⟨"https://x.com", "t", "d", ["Brave", "DuckDuckGo"], true⟩] :=
  (merge_results_same_url_extends_engines ⟨"https://x.com", "t", "d", ["Brave"], true⟩
      ⟨"https://x.com", "t2", "d2", ["DuckDuckGo"], false⟩ rfl).trans (by decide)

theorem insertEntries_frame (es : List ResultRow) (s : Store) (qid idx : Nat) :
    (insertEntries s qid idx es).engines = s.engines ∧
    (insertEntries s qid idx es).queries = s.queries ∧
    (∃ dr, (insertEntries s qid idx es).results = s.results ++ dr) ∧
    (∃ dl, (insertEntries s qid idx es).query_results = s.query_results ++ dl) := by
  induction es generalizing s idx with
  | nil =>
    exact ⟨rfl, rfl, ⟨[], by simp [insertEntries]⟩, ⟨[], by simp [insertEntries]⟩⟩
  | cons e es ih =>
    rcases hf : s.results.find? (fun x => x.url == e.url) with _ | r
    · by_cases hl : (s.query_results.any
          (fun l => l.query_id == qid && l.result_id == s.nextResultId)) = true
      · have := ih ({ s with
            results := s.results ++ [⟨s.nextResultId, e.url, e.title, e.description⟩],
            nextResultId := s.nextResultId + 1 }) (idx + 1)
        simp only [insertEntries, insert_result, hf, insert_query_result] at *
        simp only [hl, if_true] at *
        rcases this with ⟨h1, h2, ⟨dr, h3⟩, ⟨dl, h4⟩⟩
        exact ⟨h1, h2, ⟨_ :: dr, by simpa [List.append_assoc] using h3⟩, ⟨dl, h4⟩⟩
      · have := ih ({ s with
            results := s.results ++ [⟨s.nextResultId, e.url, e.title, e.description⟩],
            nextResultId := s.nextResultId + 1,
            query_results := s.query_results ++ [⟨qid, s.nextResultId, idx⟩] }) (idx + 1)
        simp only [insertEntries, insert_result, hf, insert_query_result] at *
        simp only [hl, if_false, Bool.false_eq_true] at *
        rcases this with ⟨h1, h2, ⟨dr, h3⟩, ⟨dl, h4⟩⟩
        refine ⟨h1, h2, ⟨_ :: dr, by simpa [List.append_assoc] using h3⟩,
          ⟨_ :: dl, by simpa [List.append_assoc] using h4⟩⟩
    · by_cases hl : (s.query_results.any
          (fun l => l.query_id == qid && l.result_id == r.id)) = true
      · have := ih s (idx + 1)
        simp only [insertEntries, insert_result, hf, insert_query_result] at *
        simp only [hl, if_true] at *
        exact this
      · have := ih ({ s with
            query_results := s.query_results ++ [⟨qid, r.id, idx⟩] }) (idx + 1)
        simp only [insertEntries, insert_result, hf, insert_query_result] at *
        simp only [hl, if_false, Bool.false_eq_true] at *
        rcases this with ⟨h1, h2, h3, ⟨dl, h4⟩⟩
        exact ⟨h1, h2, h3, ⟨_ :: dl, by simpa [List.append_assoc] using h4⟩⟩

theorem LinkedIn_mono (s s' : Store) (qid : Nat) (e : ResultRow)
    (h : LinkedIn s qid e)
    (hr : ∃ d, s'.results = s.results ++ d)
    (hl : ∃ d, s'.query_results = s.query_results ++ d) :
    LinkedIn s' qid e := by
  rcases h with ⟨r, hfind, l, hmem, hq, hid⟩
  rcases hr with ⟨dr, hr⟩
  rcases hl with ⟨dl, hl⟩
  refine ⟨r, ?_, l, ?_, hq, hid⟩
  · rw [hr, List.find?_append, hfind]
    rfl
  · rw [hl]
    exact List.mem_append_left _ hmem

theorem insertEntries_establish (es : List ResultRow) (s : Store) (qid idx : Nat) :
    ∀ e ∈ es, LinkedIn (insertEntries s qid idx es) qid e := by
  induction es generalizing s idx with
  | nil => intro e he; cases he
  | cons e es ih =>
    intro e' he'
    rcases List.mem_cons.mp he' with rfl | htail
    · rcases hf : s.results.find? (fun x => x.url == e'.url) with _ | r
      · simp only [insertEntries, insert_result, hf]
        rcases insertEntries_frame es _ qid (idx + 1) with ⟨-, -, hr, hl⟩
        refine LinkedIn_mono _ _ qid e' ?_ hr hl
        have hfind2 : ({ s with
            results := s.results ++ [⟨s.nextResultId, e'.url, e'.title, e'.description⟩],
            nextResultId := s.nextResultId + 1 } : Store).results.find?
              (fun x => x.url == e'.url)
            = some ⟨s.nextResultId, e'.url, e'.title, e'.description⟩ := by
          simp only [List.find?_append, hf]
          simp [List.find?]
        by_cases hl2 : (s.query_results.any
            (fun l => l.query_id == qid && l.result_id == s.nextResultId)) = true
        · rcases List.any_eq_true.mp hl2 with ⟨l, hmem, hcond⟩
          simp only [Bool.and_eq_true, beq_iff_eq] at hcond
          refine ⟨⟨s.nextResultId, e'.url, e'.title, e'.description⟩, ?_, l, ?_,
            hcond.1, hcond.2⟩
          · simp only [insert_query_result, hl2, if_true]
            exact hfind2
          · simp only [insert_query_result, hl2, if_true]
            exact hmem
        · refine ⟨⟨s.nextResultId, e'.url, e'.title, e'.description⟩, ?_,
            ⟨qid, s.nextResultId, idx⟩, ?_, rfl, rfl⟩
          · simp only [insert_query_result, hl2, if_false]
            exact hfind2
          · simp only [insert_query_result, hl2, if_false]
            exact List.mem_append_right _ (by simp)
      · simp only [insertEntries, insert_result, hf]
        rcases insertEntries_frame es _ qid (idx + 1) with ⟨-, -, hr, hl⟩
        refine LinkedIn_mono _ _ qid e' ?_ hr hl
        by_cases hl2 : (s.query_results.any
            (fun l => l.query_id == qid && l.result_id == r.id)) = true
        · rcases List.any_eq_true.mp hl2 with ⟨l, hmem, hcond⟩
          simp only [Bool.and_eq_true, beq_iff_eq] at hcond
          refine ⟨r, ?_, l, ?_, hcond.1, hcond.2⟩
          · simp only [insert_query_result, hl2, if_true]
            exact hf
          · simp only [insert_query_result, hl2, if_true]
            exact hmem
        · refine ⟨r, ?_, ⟨qid, r.id, idx⟩, ?_, rfl, rfl⟩
          · simp only [insert_query_result, hl2, if_false]
            exact hf
          · simp only [insert_query_result, hl2, if_false]
            exact List.mem_append_right _ (by simp)
    · rcases hf : s.results.find? (fun x => x.url == e.url) with _ | r
      · simp only [insertEntries, insert_result, hf]
        exact ih _ _ e' htail
      · simp only [insertEntries, insert_result, hf]
        exact ih _ _ e' htail

theorem insertEntries_noop (es : List ResultRow) (s : Store) (qid idx : Nat)
    (h : ∀ e ∈ es, LinkedIn s qid e) :
    insertEntries s qid idx es = s := by
  induction es generalizing idx with
  | nil => rfl
  | cons e es ih =>
    rcases h e (by simp) with ⟨r, hfind, l, hmem, hq, hid⟩
    have hany : (s.query_results.any
        (fun x => x.query_id == qid && x.result_id == r.id)) = true :=
      List.any_eq_true.mpr ⟨l, hmem, by simp [hq, hid]⟩
    simp only [insertEntries, insert_result, hfind, insert_query_result, hany, if_true]
    exact ih (idx + 1) (fun e' he' => h e' (List.mem_cons_of_mem _ he'))

/-- C8: repeating upsert_query_with_results with identical provider, query text, entry
list and timestamp returns the same query id and leaves the whole store — in
particular the cached entry list for that query — unchanged: no duplicate links are
created. Stated from the freshly initialized store, for an arbitrary entry list. -/
theorem upsert_query_with_results_idempotent (e q : String) (A : List ResultRow) (t : Nat) :
    upsert_query_with_results (upsert_query_with_results Store.init e q A t).2 e q A t
      = upsert_query_with_results Store.init e q A t ∧
    get_results_for_query (upsert_query_with_results
        (upsert_query_with_results Store.init e q A t).2 e q A t).2
      (upsert_query_with_results Store.init e q A t).1
      = get_results_for_query (upsert_query_with_results Store.init e q A t).2
        (upsert_query_with_results Store.init e q A t).1 := by
  have h1 : upsert_query_with_results Store.init e q A t
      = (1, insertEntries ⟨[(1, e)], [⟨1, q, 1, t⟩], [], [], [], [], 2, 2, 1, 1⟩ 1 0 A) := rfl
  rcases insertEntries_frame A ⟨[(1, e)], [⟨1, q, 1, t⟩], [], [], [], [], 2, 2, 1, 1⟩ 1 0 with
    ⟨hE, hQ, -, -⟩
  have hge : get_engine_id
      (insertEntries ⟨[(1, e)], [⟨1, q, 1, t⟩], [], [], [], [], 2, 2, 1, 1⟩ 1 0 A) e
      = (1, insertEntries ⟨[(1, e)], [⟨1, q, 1, t⟩], [], [], [], [], 2, 2, 1, 1⟩ 1 0 A) := by
    simp only [get_engine_id, hE]
    simp
  have hgq : get_query
      (insertEntries ⟨[(1, e)], [⟨1, q, 1, t⟩], [], [], [], [], 2, 2, 1, 1⟩ 1 0 A) q 1
      = some ⟨1, q, 1, t⟩ := by
    simp only [get_query, hQ]
    simp
  have hnoop : insertEntries
      (insertEntries ⟨[(1, e)], [⟨1, q, 1, t⟩], [], [], [], [], 2, 2, 1, 1⟩ 1 0 A) 1
      (countLinks (insertEntries ⟨[(1, e)], [⟨1, q, 1, t⟩], [], [], [], [], 2, 2, 1, 1⟩ 1 0 A) 1)
      A
      = insertEntries ⟨[(1, e)], [⟨1, q, 1, t⟩], [], [], [], [], 2, 2, 1, 1⟩ 1 0 A :=
    insertEntries_noop A _ 1 _
      (insertEntries_establish A ⟨[(1, e)], [⟨1, q, 1, t⟩], [], [], [], [], 2, 2, 1, 1⟩ 1 0)
  have h2 : upsert_query_with_results
      (insertEntries ⟨[(1, e)], [⟨1, q, 1, t⟩], [], [], [], [], 2, 2, 1, 1⟩ 1 0 A) e q A t
      = (1, insertEntries ⟨[(1, e)], [⟨1, q, 1, t⟩], [], [], [], [], 2, 2, 1, 1⟩ 1 0 A) := by
    simp only [upsert_query_with_results, hge, hgq, hnoop]
  rw [h1]
  rw [h2]
  exact ⟨rfl, rfl⟩

theorem specEntries_url_mem (es : List ResultRow) (rid : Nat) :
    ∀ r ∈ specEntries es rid, r.url ∈ es.map (fun x => x.url) := by
  induction es generalizing rid with
  | nil => intro r h; cases h
  | cons e es ih =>
    intro r h
    rcases List.mem_cons.mp h with rfl | h2
    · simp
    · simp only [List.map_cons, List.mem_cons]
      exact Or.inr (ih _ r h2)

theorem specEntries_id_bounds (es : List ResultRow) (rid : Nat) :
    ∀ r ∈ specEntries es rid, rid ≤ r.id ∧ r.id < rid + es.length := by
  induction es generalizing rid with
  | nil => intro r h; cases h
  | cons e es ih =>
    intro r h
    rcases List.mem_cons.mp h with rfl | h2
    · simp
    · have := ih (rid + 1) r h2
      simp only [List.length_cons]
      omega

theorem specLinks_query_id (qid : Nat) (es : List ResultRow) (rid idx : Nat) :
    ∀ l ∈ specLinks qid es rid idx, l.query_id = qid := by
  induction es generalizing rid idx with
  | nil => intro l h; cases h
  | cons e es ih =>
    intro l h
    rcases List.mem_cons.mp h with rfl | h2
    · rfl
    · exact ih _ _ l h2

theorem specLinks_result_id_bounds (qid : Nat) (es : List ResultRow) (rid idx : Nat) :
    ∀ l ∈ specLinks qid es rid idx, rid ≤ l.result_id ∧ l.result_id < rid + es.length := by
  induction es generalizing rid idx with
  | nil => intro l h; cases h
  | cons e es ih =>
    intro l h
    rcases List.mem_cons.mp h with rfl | h2
    · simp
    · have := ih (rid + 1) (idx + 1) l h2
      simp only [List.length_cons]
      omega

theorem specLinks_index_bounds (qid : Nat) (es : List ResultRow) (rid idx : Nat) :
    ∀ l ∈ specLinks qid es rid idx, idx ≤ l.result_index ∧ l.result_index < idx + es.length := by
  induction es generalizing rid idx with
  | nil => intro l h; cases h
  | cons e es ih =>
    intro l h
    rcases List.mem_cons.mp h with rfl | h2
    · simp
    · have := ih (rid + 1) (idx + 1) l h2
      simp only [List.length_cons]
      omega

theorem specLinks_filter_self (qid : Nat) (es : List ResultRow) (rid idx : Nat) :
    (specLinks qid es rid idx).filter (fun l => l.query_id == qid) = specLinks qid es rid idx := by
  induction es generalizing rid idx with
  | nil => rfl
  | cons e es ih => simp [specLinks, List.filter_cons, ih]

theorem specLinks_length (qid : Nat) (es : List ResultRow) (rid idx : Nat) :
    (specLinks qid es rid idx).length = es.length := by
  induction es generalizing rid idx with
  | nil => rfl
  | cons e es ih => simp [specLinks, ih]

theorem specLinks_index_pairwise (qid : Nat) (es : List ResultRow) (rid idx : Nat) :
    (specLinks qid es rid idx).Pairwise (fun a b => a.result_index < b.result_index) := by
  induction es generalizing rid idx with
  | nil => exact List.Pairwise.nil
  | cons e es ih =>
    refine List.pairwise_cons.mpr ⟨?_, ih (rid + 1) (idx + 1)⟩
    intro l hl
    have := (specLinks_index_bounds qid es (rid + 1) (idx + 1) l hl).1
    simp only []
    omega

theorem sortByIndex_of_pairwise (l : List LinkRow)
    (h : l.Pairwise (fun a b => a.result_index < b.result_index)) : sortByIndex l = l := by
  induction l with
  | nil => rfl
  | cons x xs ih =>
    rcases List.pairwise_cons.mp h with ⟨hx, hxs⟩
    simp only [sortByIndex, ih hxs]
    cases xs with
    | nil => rfl
    | cons y ys => simp only [insertByIndex, if_pos (hx y (by simp))]

theorem specEntries_find_eq (es : List ResultRow) (rid : Nat) (j : Nat) (h : j < es.length) :
    (specEntries es rid).find? (fun r => r.id == rid + j)
      = some ⟨rid + j, (es.get ⟨j, h⟩).url, (es.get ⟨j, h⟩).title,
          (es.get ⟨j, h⟩).description⟩ := by
  induction es generalizing rid j with
  | nil => simp at h
  | cons e es ih =>
    cases j with
    | zero =>
      simp [specEntries, List.find?_cons_of_pos]
    | succ j =>
      have hne : ((⟨rid, e.url, e.title, e.description⟩ : ResultEntry).id == rid + (j + 1))
          = false := by
        simp only [beq_eq_false_iff_ne, ne_eq]
        omega
      rw [specEntries, List.find?_cons_of_neg _ (by simp [hne])]
      have := ih (rid + 1) j (by simpa using Nat.lt_of_succ_lt_succ h)
      rw [show rid + 1 + j = rid + (j + 1) by omega] at this
      exact this

theorem specEntries_find_none (es : List ResultRow) (rid m : Nat)
    (h : rid + es.length ≤ m) :
    (specEntries es rid).find? (fun r => r.id == m) = none := by
  rw [List.find?_eq_none]
  intro r hr
  have := specEntries_id_bounds es rid r hr
  simp only [beq_eq_false_iff_ne, ne_eq, beq_iff_eq]
  omega

theorem specLinks_filterMap_lookup (es : List ResultRow) (qid rid idx : Nat)
    (T : List ResultEntry)
    (hfind : ∀ (j : Nat) (h : j < es.length), T.find? (fun r => r.id == rid + j)
      = some ⟨rid + j, (es.get ⟨j, h⟩).url, (es.get ⟨j, h⟩).title,
          (es.get ⟨j, h⟩).description⟩) :
    (specLinks qid es rid idx).filterMap
      (fun l => (T.find? (fun r => r.id == l.result_id)).map
        (fun r => (⟨r.url, r.title, r.description⟩ : ResultRow))) = es := by
  induction es generalizing rid idx with
  | nil => rfl
  | cons e es ih =>
    have h0 := hfind 0 (by simp)
    rw [specLinks, List.filterMap_cons]
    have h0' : T.find? (fun r => r.id == (⟨qid, rid, idx⟩ : LinkRow).result_id)
        = some ⟨rid, e.url, e.title, e.description⟩ := by
      simpa using h0
    rw [h0']
    simp only [Option.map_some']
    have htail : (specLinks qid es (rid + 1) (idx + 1)).filterMap
        (fun l => (T.find? (fun r => r.id == l.result_id)).map
          (fun r => (⟨r.url, r.title, r.description⟩ : ResultRow))) = es := by
      apply ih
      intro j hj
      have := hfind (j + 1) (by simpa using Nat.succ_lt_succ hj)
      rw [show rid + (j + 1) = rid + 1 + j by omega] at this
      simpa using this
    rw [htail]

theorem insertEntries_fresh (es : List ResultRow) (s : Store) (qid idx : Nat)
    (hfresh : ∀ e ∈ es, ∀ r ∈ s.results, ¬ r.url = e.url)
    (hnodup : (es.map (fun e => e.url)).Nodup)
    (hlink : ∀ l ∈ s.query_results, l.result_id < s.nextResultId) :
    insertEntries s qid idx es =
      { s with
        results := s.results ++ specEntries es s.nextResultId,
        query_results := s.query_results ++ specLinks qid es s.nextResultId idx,
        nextResultId := s.nextResultId + es.length } := by
  induction es generalizing s idx with
  | nil => simp [insertEntries, specEntries, specLinks]
  | cons e es ih =>
    have hfind : s.results.find? (fun x => x.url == e.url) = none := by
      rw [List.find?_eq_none]
      intro r hr
      simpa using hfresh e (by simp) r hr
    have hany : (s.query_results.any
        (fun l => l.query_id == qid && l.result_id == s.nextResultId)) = false := by
      rw [List.any_eq_false]
      intro l hl
      have := hlink l hl
      simp only [Bool.and_eq_true, beq_iff_eq, not_and]
      omega
    have step : insertEntries s qid idx (e :: es)
        = insertEntries ({ s with
            results := s.results ++ [⟨s.nextResultId, e.url, e.title, e.description⟩],
            query_results := s.query_results ++ [⟨qid, s.nextResultId, idx⟩],
            nextResultId := s.nextResultId + 1 }) qid (idx + 1) es := by
      simp only [insertEntries, insert_result, hfind, insert_query_result]
      simp [hany]
    rw [step]
    rw [ih _ (idx + 1) ?hf ?hn ?hl]
    case hf =>
      intro e' he' r hr
      have hn2 : (∀ x ∈ es, ¬ x.url = e.url) ∧ (List.map (fun x => x.url) es).Nodup := by
        simpa using hnodup
      rcases List.mem_append.mp hr with hr1 | hr2
      · exact hfresh e' (List.mem_cons_of_mem _ he') r hr1
      · have hr2' : r = ⟨s.nextResultId, e.url, e.title, e.description⟩ := by simpa using hr2
        subst hr2'
        exact fun hu => hn2.1 e' he' hu.symm
    case hn =>
      have hn2 : (∀ x ∈ es, ¬ x.url = e.url) ∧ (List.map (fun x => x.url) es).Nodup := by
        simpa using hnodup
      exact hn2.2
    case hl =>
      intro l hl
      rcases List.mem_append.mp hl with hl1 | hl2
      · have := hlink l hl1
        simp only []
        omega
      · have : l = ⟨qid, s.nextResultId, idx⟩ := by simpa using hl2
        subst this
        simp
    simp only [specEntries, specLinks, List.append_assoc, List.cons_append, List.nil_append,
      List.length_cons]
    rw [show s.nextResultId + (es.length + 1) = s.nextResultId + 1 + es.length by omega]

theorem specLinks_map_index (qid : Nat) (es : List ResultRow) (rid idx : Nat) :
    (specLinks qid es rid idx).map (fun l => l.result_index) = List.range' idx es.length := by
  induction es generalizing rid idx with
  | nil => rfl
  | cons e es ih => simp [specLinks, ih, List.range']

/-- C7: from an empty store, upserting page A then page B for the same (provider,
query) with pairwise distinct urls returns the same query id, makes
get_results_for_query return the n+m entries A ++ B (A's entries at positions [0,n)
in original order, B's at [n,n+m) in original order), leaves the link positions
contiguous from 0, and appends to the existing links without reordering or
overwriting them. -/
theorem upsert_append_only (e q : String) (A B : List ResultRow) (t1 t2 : Nat)
    (h : ((A ++ B).map (fun r => r.url)).Nodup) :
    (upsert_query_with_results (upsert_query_with_results Store.init e q A t1).2 e q B t2).1
      = (upsert_query_with_results Store.init e q A t1).1 ∧
    get_results_for_query
        (upsert_query_with_results (upsert_query_with_results Store.init e q A t1).2
          e q B t2).2
        (upsert_query_with_results Store.init e q A t1).1
      = A ++ B ∧
    ((sortByIndex ((upsert_query_with_results (upsert_query_with_results Store.init e q A t1).2
          e q B t2).2.query_results.filter
        (fun l => l.query_id == (upsert_query_with_results Store.init e q A t1).1))).map
        (fun l => l.result_index))
      = List.range (A.length + B.length) ∧
    ∃ tail, (upsert_query_with_results (upsert_query_with_results Store.init e q A t1).2
        e q B t2).2.query_results
      = (upsert_query_with_results Store.init e q A t1).2.query_results ++ tail := by
  have hAB : (A.map (fun r => r.url)).Nodup ∧ (B.map (fun r => r.url)).Nodup ∧
      ∀ u ∈ A.map (fun r => r.url), u ∉ B.map (fun r => r.url) := by
    rw [List.map_append] at h
    exact List.nodup_append.mp h
  have h1 : upsert_query_with_results Store.init e q A t1
      = (1, insertEntries ⟨[(1, e)], [⟨1, q, 1, t1⟩], [], [], [], [], 2, 2, 1, 1⟩ 1 0 A) := rfl
  have hsA : insertEntries ⟨[(1, e)], [⟨1, q, 1, t1⟩], [], [], [], [], 2, 2, 1, 1⟩ 1 0 A
      = (⟨[(1, e)], [⟨1, q, 1, t1⟩], specEntries A 1, specLinks 1 A 1 0, [], [],
          2, 2, 1 + A.length, 1⟩ : Store) := by
    have := insertEntries_fresh A ⟨[(1, e)], [⟨1, q, 1, t1⟩], [], [], [], [], 2, 2, 1, 1⟩ 1 0
      (by intro e' he' r hr; cases hr) hAB.1 (by intro l hl; cases hl)
    simpa using this
  have hge : get_engine_id (⟨[(1, e)], [⟨1, q, 1, t1⟩], specEntries A 1, specLinks 1 A 1 0,
      [], [], 2, 2, 1 + A.length, 1⟩ : Store) e
      = (1, ⟨[(1, e)], [⟨1, q, 1, t1⟩], specEntries A 1, specLinks 1 A 1 0,
          [], [], 2, 2, 1 + A.length, 1⟩) := by
    simp [get_engine_id]
  have hgq : get_query (⟨[(1, e)], [⟨1, q, 1, t1⟩], specEntries A 1, specLinks 1 A 1 0,
      [], [], 2, 2, 1 + A.length, 1⟩ : Store) q 1 = some ⟨1, q, 1, t1⟩ := by
    simp [get_query]
  have hcount : countLinks (⟨[(1, e)], [⟨1, q, 1, t1⟩], specEntries A 1, specLinks 1 A 1 0,
      [], [], 2, 2, 1 + A.length, 1⟩ : Store) 1 = A.length := by
    simp only [countLinks]
    rw [specLinks_filter_self, specLinks_length]
  have hins : insertEntries (⟨[(1, e)], [⟨1, q, 1, t1⟩], specEntries A 1, specLinks 1 A 1 0,
      [], [], 2, 2, 1 + A.length, 1⟩ : Store) 1 A.length B
      = (⟨[(1, e)], [⟨1, q, 1, t1⟩], specEntries A 1 ++ specEntries B (1 + A.length),
          specLinks 1 A 1 0 ++ specLinks 1 B (1 + A.length) A.length, [], [],
          2, 2, 1 + A.length + B.length, 1⟩ : Store) := by
    have := insertEntries_fresh B (⟨[(1, e)], [⟨1, q, 1, t1⟩], specEntries A 1,
        specLinks 1 A 1 0, [], [], 2, 2, 1 + A.length, 1⟩ : Store) 1 A.length
      (by
        intro b hb r hr hu
        have hmem := specEntries_url_mem A 1 r hr
        refine hAB.2.2 r.url hmem ?_
        rw [hu]
        exact List.mem_map_of_mem _ hb)
      hAB.2.1
      (by
        intro l hl
        have := (specLinks_result_id_bounds 1 A 1 0 l hl).2
        simpa using this)
    simpa using this
  have h2 : upsert_query_with_results (⟨[(1, e)], [⟨1, q, 1, t1⟩], specEntries A 1,
      specLinks 1 A 1 0, [], [], 2, 2, 1 + A.length, 1⟩ : Store) e q B t2
      = (1, ⟨[(1, e)], [⟨1, q, 1, t1⟩], specEntries A 1 ++ specEntries B (1 + A.length),
          specLinks 1 A 1 0 ++ specLinks 1 B (1 + A.length) A.length, [], [],
          2, 2, 1 + A.length + B.length, 1⟩) := by
    simp only [upsert_query_with_results, hge, hgq, hcount, hins]
  rw [h1, hsA, h2]
  have hfilter : ((⟨[(1, e)], [⟨1, q, 1, t1⟩], specEntries A 1 ++ specEntries B (1 + A.length),
      specLinks 1 A 1 0 ++ specLinks 1 B (1 + A.length) A.length, [], [],
      2, 2, 1 + A.length + B.length, 1⟩ : Store).query_results.filter
        (fun l => l.query_id == 1))
      = specLinks 1 A 1 0 ++ specLinks 1 B (1 + A.length) A.length := by
    rw [show (⟨[(1, e)], [⟨1, q, 1, t1⟩], specEntries A 1 ++ specEntries B (1 + A.length),
      specLinks 1 A 1 0 ++ specLinks 1 B (1 + A.length) A.length, [], [],
      2, 2, 1 + A.length + B.length, 1⟩ : Store).query_results
      = specLinks 1 A 1 0 ++ specLinks 1 B (1 + A.length) A.length from rfl]
    rw [List.filter_append, specLinks_filter_self, specLinks_filter_self]
  have hpair : (specLinks 1 A 1 0 ++ specLinks 1 B (1 + A.length) A.length).Pairwise
      (fun a b => a.result_index < b.result_index) := by
    rw [List.pairwise_append]
    refine ⟨specLinks_index_pairwise 1 A 1 0, specLinks_index_pairwise 1 B _ _, ?_⟩
    intro a ha b hb
    have h1a := (specLinks_index_bounds 1 A 1 0 a ha).2
    have h2b := (specLinks_index_bounds 1 B (1 + A.length) A.length b hb).1
    omega
  have hsort : sortByIndex (specLinks 1 A 1 0 ++ specLinks 1 B (1 + A.length) A.length)
      = specLinks 1 A 1 0 ++ specLinks 1 B (1 + A.length) A.length :=
    sortByIndex_of_pairwise _ hpair
  have hfm1 : (specLinks 1 A 1 0).filterMap
      (fun l => ((⟨[(1, e)], [⟨1, q, 1, t1⟩], specEntries A 1 ++ specEntries B (1 + A.length),
          specLinks 1 A 1 0 ++ specLinks 1 B (1 + A.length) A.length, [], [],
          2, 2, 1 + A.length + B.length, 1⟩ : Store).results.find?
            (fun r => r.id == l.result_id)).map
        (fun r => (⟨r.url, r.title, r.description⟩ : ResultRow))) = A := by
    apply specLinks_filterMap_lookup
    intro j hj
    rw [show (⟨[(1, e)], [⟨1, q, 1, t1⟩], specEntries A 1 ++ specEntries B (1 + A.length),
      specLinks 1 A 1 0 ++ specLinks 1 B (1 + A.length) A.length, [], [],
      2, 2, 1 + A.length + B.length, 1⟩ : Store).results
      = specEntries A 1 ++ specEntries B (1 + A.length) from rfl]
    rw [List.find?_append, specEntries_find_eq A 1 j hj]
    rfl
  have hfm2 : (specLinks 1 B (1 + A.length) A.length).filterMap
      (fun l => ((⟨[(1, e)], [⟨1, q, 1, t1⟩], specEntries A 1 ++ specEntries B (1 + A.length),
          specLinks 1 A 1 0 ++ specLinks 1 B (1 + A.length) A.length, [], [],
          2, 2, 1 + A.length + B.length, 1⟩ : Store).results.find?
            (fun r => r.id == l.result_id)).map
        (fun r => (⟨r.url, r.title, r.description⟩ : ResultRow))) = B := by
    apply specLinks_filterMap_lookup
    intro j hj
    rw [show (⟨[(1, e)], [⟨1, q, 1, t1⟩], specEntries A 1 ++ specEntries B (1 + A.length),
      specLinks 1 A 1 0 ++ specLinks 1 B (1 + A.length) A.length, [], [],
      2, 2, 1 + A.length + B.length, 1⟩ : Store).results
      = specEntries A 1 ++ specEntries B (1 + A.length) from rfl]
    rw [List.find?_append, specEntries_find_none A 1 (1 + A.length + j) (by omega)]
    rw [specEntries_find_eq B (1 + A.length) j hj]
    rfl
  refine ⟨rfl, ?_, ?_, ⟨specLinks 1 B (1 + A.length) A.length, rfl⟩⟩
  · rw [get_results_for_query]
    rw [hfilter, hsort, List.filterMap_append, hfm1, hfm2]
  · rw [hfilter, hsort, List.map_append, specLinks_map_index, specLinks_map_index]
    rw [List.range_eq_range']
    have := List.range'_append 0 A.length B.length 1
    simp only [Nat.one_mul, Nat.zero_add] at this
    rw [this, Nat.add_comm B.length A.length]

/-- Witness for C7 at concrete one-entry pages with distinct urls. -/
theorem upsert_append_only_witness :
    ((([⟨"https://a.com", "ta", "da"⟩] ++ [⟨"https://b.com", "tb", "db"⟩] : List ResultRow).map
        (fun r => r.url)).Nodup) ∧
    ((upsert_query_with_results (upsert_query_with_results Store.init "Brave" "rust"
          [⟨"https://a.com", "ta", "da"⟩] 0).2 "Brave" "rust"
        [⟨"https://b.com", "tb", "db"⟩] 1).1
      = (upsert_query_with_results Store.init "Brave" "rust"
          [⟨"https://a.com", "ta", "da"⟩] 0).1 ∧
    get_results_for_query
        (upsert_query_with_results (upsert_query_with_results Store.init "Brave" "rust"
            [⟨"https://a.com", "ta", "da"⟩] 0).2 "Brave" "rust"
          [⟨"https://b.com", "tb", "db"⟩] 1).2
        (upsert_query_with_results Store.init "Brave" "rust"
          [⟨"https://a.com", "ta", "da"⟩] 0).1
      = [⟨"https://a.com", "ta", "da"⟩] ++ [⟨"https://b.com", "tb", "db"⟩] ∧
    ((sortByIndex ((upsert_query_with_results (upsert_query_with_results Store.init "Brave"
            "rust" [⟨"https://a.com", "ta", "da"⟩] 0).2 "Brave" "rust"
          [⟨"https://b.com", "tb", "db"⟩] 1).2.query_results.filter
        (fun l => l.query_id == (upsert_query_with_results Store.init "Brave" "rust"
            [⟨"https://a.com", "ta", "da"⟩] 0).1))).map
        (fun l => l.result_index))
      = List.range (([⟨"https://a.com", "ta", "da"⟩] : List ResultRow).length
          + ([⟨"https://b.com", "tb", "db"⟩] : List ResultRow).length) ∧
    ∃ tail, (upsert_query_with_results (upsert_query_with_results Store.init "Brave" "rust"
          [⟨"https://a.com", "ta", "da"⟩] 0).2 "Brave" "rust"
        [⟨"https://b.com", "tb", "db"⟩] 1).2.query_results
      = (upsert_query_with_results Store.init "Brave" "rust"
          [⟨"https://a.com", "ta", "da"⟩] 0).2.query_results ++ tail) :=
  ⟨by decide, upsert_append_only "Brave" "rust" [⟨"https://a.com", "ta", "da"⟩]
    [⟨"https://b.com", "tb", "db"⟩] 0 1 (by decide)⟩

theorem fetch_ok_eq (s : Store) (e q : String) (page : List ResultRow)
    (start count t : Nat) :
    fetch_or_cache_result s e q (.ok page) start count t =
      (if (cachedRowsOf s e q).length < start + count then
        Except.ok
          ((((cachedRowsOf s e q).take
                (min (cachedRowsOf s e q).length (start + count))).drop
              (min start (cachedRowsOf s e q).length)).map
              (fun r => toSearchResult e r true)
            ++ page.map (fun r => toSearchResult e r false),
          (upsert_query_with_results (get_engine_id s e).2 e q page t).2, 1)
      else
        Except.ok
          ((((cachedRowsOf s e q).take
                (min (cachedRowsOf s e q).length (start + count))).drop
              (min start (cachedRowsOf s e q).length)).map
              (fun r => toSearchResult e r true),
          (get_engine_id s e).2, 0)) := rfl

/-- C4 (counterexample): with url https://x.com already linked to the (Brave, rust)
query, a window request of start=0, count=2 triggers a live fetch whose page holds the
same url; the call emits that url once with cached=true and once with cached=false —
an entry already linked to this pair before the live fetch is emitted with
cached=false, refuting the claimed equivalence. -/
theorem fetch_cached_flag_counterexample :
    urlLinkedToQuery (upsert_query_with_results Store.init "Brave" "rust"
        [⟨"https://x.com", "t", "d"⟩] 0).2 "Brave" "rust" "https://x.com" = true ∧
    fetch_or_cache_result (upsert_query_with_results Store.init "Brave" "rust"
        [⟨"https://x.com", "t", "d"⟩] 0).2 "Brave" "rust"
        (.ok [⟨"https://x.com", "t", "d"⟩]) 0 2 0
      = .ok ([⟨"https://x.com", "t", "d", ["Brave"], true⟩,
              ⟨"https://x.com", "t", "d", ["Brave"], false⟩],
          (upsert_query_with_results Store.init "Brave" "rust"
            [⟨"https://x.com", "t", "d"⟩] 0).2, 1) :=
  ⟨rfl, rfl⟩

/-- C4 (amended): in the returned list, a result carries cached=true exactly when it
was served from the cached slice — every such result's url comes from the list linked
to the (provider, query) pair before the live fetch — and every fresh-page result is
emitted with cached=false, even when its entry was already linked to this same query. -/
theorem fetch_cached_flag_provenance (s : Store) (e q : String) (page : List ResultRow)
    (start count t : Nat) :
    ∃ s2 k,
      fetch_or_cache_result s e q (.ok page) start count t =
        .ok ((((cachedRowsOf s e q).take
                (min (cachedRowsOf s e q).length (start + count))).drop
              (min start (cachedRowsOf s e q).length)).map (fun r => toSearchResult e r true)
          ++ (if (cachedRowsOf s e q).length < start + count then
                page.map (fun r => toSearchResult e r false) else []), s2, k) ∧
      (∀ r ∈ (((cachedRowsOf s e q).take
                (min (cachedRowsOf s e q).length (start + count))).drop
              (min start (cachedRowsOf s e q).length)).map (fun r => toSearchResult e r true),
        r.cached = true ∧ ∃ row ∈ cachedRowsOf s e q, row.url = r.url) ∧
      (∀ r ∈ (if (cachedRowsOf s e q).length < start + count then
                page.map (fun r => toSearchResult e r false) else []),
        r.cached = false ∧ ∃ row ∈ page, row.url = r.url) := by
  have hserved : ∀ r ∈ (((cachedRowsOf s e q).take
        (min (cachedRowsOf s e q).length (start + count))).drop
        (min start (cachedRowsOf s e q).length)).map (fun r => toSearchResult e r true),
      r.cached = true ∧ ∃ row ∈ cachedRowsOf s e q, row.url = r.url := by
    intro r hr
    rcases List.mem_map.mp hr with ⟨row, hrow, rfl⟩
    exact ⟨rfl, row, List.mem_of_mem_take (List.mem_of_mem_drop hrow), rfl⟩
  have hfresh : ∀ r ∈ (if (cachedRowsOf s e q).length < start + count then
        page.map (fun r => toSearchResult e r false) else []),
      r.cached = false ∧ ∃ row ∈ page, row.url = r.url := by
    intro r hr
    by_cases hc : (cachedRowsOf s e q).length < start + count
    · rw [if_pos hc] at hr
      rcases List.mem_map.mp hr with ⟨row, hrow, rfl⟩
      exact ⟨rfl, row, hrow, rfl⟩
    · rw [if_neg hc] at hr
      cases hr
  by_cases hc : (cachedRowsOf s e q).length < start + count
  · refine ⟨(upsert_query_with_results (get_engine_id s e).2 e q page t).2, 1, ?_,
      hserved, hfresh⟩
    rw [fetch_ok_eq, if_pos hc, if_pos hc]
  · refine ⟨(get_engine_id s e).2, 0, ?_, hserved, hfresh⟩
    rw [fetch_ok_eq, if_neg hc, if_neg hc, List.append_nil]

/-- C5: fetch_or_cache_result serves the cached slice between min(start, cached_count)
and min(cached_count, start + count) with cached=true; exactly when
cached_count < start + count it performs one live provider call, persists the page via
upsert_query_with_results, and appends every fresh entry with cached=false in provider
order, not re-clipped to the window; otherwise it performs zero live calls and returns
the slice alone. -/
theorem fetch_or_cache_result_window_spec (s : Store) (e q : String) (page : List ResultRow)
    (start count t : Nat) :
    fetch_or_cache_result s e q (.ok page) start count t =
      (if (cachedRowsOf s e q).length < start + count then
        Except.ok
          ((((cachedRowsOf s e q).take
                (min (cachedRowsOf s e q).length (start + count))).drop
              (min start (cachedRowsOf s e q).length)).map
              (fun r => toSearchResult e r true)
            ++ page.map (fun r => toSearchResult e r false),
          (upsert_query_with_results (get_engine_id s e).2 e q page t).2, 1)
      else
        Except.ok
          ((((cachedRowsOf s e q).take
                (min (cachedRowsOf s e q).length (start + count))).drop
              (min start (cachedRowsOf s e q).length)).map
              (fun r => toSearchResult e r true),
          (get_engine_id s e).2, 0)) := rfl

end Claims

end PrivateSearch
